import Mathlib

/-!
# Verification of the agglomerative-clustering program `proj3.c`

Shallow embedding of the repository `matejsoroka/izp_project_3` (file
`src/proj3.c`) and proofs about it.

Modelling conventions:
* Point coordinates (`float` in C, parsed from the input file) are modelled
  as rationals `ℚ`; all distance computations (`sqrtf` in C) are idealised
  over the reals `ℝ`.
* A C `struct cluster_t` carries `size`, `capacity` and a pointer to a
  buffer holding `size` valid objects; we model the valid prefix as a
  `List obj_t` (so `size = obj.length`) and keep `capacity` explicit,
  since `resize_cluster`/`append_cluster` logic depends on it.
* `malloc`/`realloc` outcomes are environment-dependent; they are modelled
  by an explicit `allocOk : Bool` parameter.  `allocOk = true` is the
  non-failing execution used by the rest of the program model.
* The cluster array of `main` has a fixed physical length while `size`
  tracks the logical length; `remove_cluster` returns the physical array
  (same length, last slot cleared) together with the returned value
  `narr - 1`, and the driver keeps the logical prefix.
-/

/-- A 2-D labelled point, `struct obj_t` of `proj3.c`. -/
structure obj_t where
  id : Int
  x : ℚ
  y : ℚ
deriving DecidableEq, Repr

instance : Inhabited obj_t := ⟨⟨0, 0, 0⟩⟩

/-- A cluster, `struct cluster_t` of `proj3.c`: the buffer's valid prefix
as a list, plus the allocated capacity. -/
structure cluster_t where
  capacity : Nat
  obj : List obj_t
deriving DecidableEq, Repr

instance : Inhabited cluster_t := ⟨⟨0, []⟩⟩

/-- `size` field of a cluster: number of valid objects. -/
def cluster_t.size (c : cluster_t) : Nat := c.obj.length

/-- Reallocation chunk, `CLUSTER_CHUNK` of `proj3.c`. -/
def CLUSTER_CHUNK : Nat := 10

/-- `init_cluster` of `proj3.c` (successful-allocation execution): an empty
cluster with the requested capacity. -/
def init_cluster (cap : Nat) : cluster_t := ⟨cap, []⟩

/-- `clear_cluster` of `proj3.c`: frees the buffer and resets to the empty
cluster (`size = capacity = 0`, null buffer). -/
def clear_cluster (_ : cluster_t) : cluster_t := ⟨0, []⟩

/-- The capacity computation of `append_cluster` of `proj3.c`:
`while (size >= cap) cap += CLUSTER_CHUNK;`. -/
def growCap (cap size : Nat) : Nat :=
  if cap ≤ size then growCap (cap + CLUSTER_CHUNK) size else cap
termination_by size + 1 - cap
decreasing_by simp only [CLUSTER_CHUNK]; omega

/-- `resize_cluster` of `proj3.c`.  A request not exceeding the current
capacity returns the cluster unchanged; otherwise `realloc` is attempted,
whose outcome is the `allocOk` parameter: on failure the C function
returns `NULL`, modelled by `none`. -/
def resize_cluster (allocOk : Bool) (c : cluster_t) (new_cap : Nat) :
    Option cluster_t :=
  if new_cap ≤ c.capacity then some c
  else if allocOk then some ⟨new_cap, c.obj⟩ else none

/-- `append_cluster` of `proj3.c`.  It calls `resize_cluster` but ignores
its result (`resize_cluster(c, cap); c->obj[c->size++] = obj;`), so on
allocation failure it still stores the object and increments `size`
(in C this writes past the allocated buffer). -/
def append_cluster (allocOk : Bool) (c : cluster_t) (o : obj_t) : cluster_t :=
  let cap := growCap c.capacity c.obj.length
  let c' := (resize_cluster allocOk c cap).getD c
  ⟨c'.capacity, c'.obj ++ [o]⟩

/-- Comparison used by `obj_sort_compar` of `proj3.c`: ascending ids. -/
def idLE (a b : obj_t) : Prop := a.id ≤ b.id

instance : DecidableRel idLE := fun a b => inferInstanceAs (Decidable (a.id ≤ b.id))

instance : IsTotal obj_t idLE := ⟨fun a b => Int.le_total a.id b.id⟩

instance : IsTrans obj_t idLE := ⟨fun _ _ _ h₁ h₂ => le_trans h₁ h₂⟩

/-- `sort_cluster` of `proj3.c`: sorts the cluster's objects ascending by
id (`qsort` with `obj_sort_compar`). -/
def sort_cluster (c : cluster_t) : cluster_t :=
  ⟨c.capacity, c.obj.insertionSort idLE⟩

/-- `merge_clusters` of `proj3.c`: appends every object of `c2` onto `c1`
(growing as needed), then sorts `c1` by id.  `c2` is left unmodified. -/
def merge_clusters (c1 c2 : cluster_t) : cluster_t :=
  sort_cluster (c2.obj.foldl (append_cluster true) c1)

/-- The body of `remove_cluster`'s loop in `proj3.c`, acting on the slots
from the removed index to the end of the array: each slot is cleared and,
unless it is the last, the (still unmodified) next slot is merged into
it. -/
def remove_clusterLoop : List cluster_t → List cluster_t
  | [] => []
  | [c] => [clear_cluster c]
  | c :: d :: rest =>
      merge_clusters (clear_cluster c) d :: remove_clusterLoop (d :: rest)

/-- `remove_cluster` of `proj3.c`: the physical array after the
clear-and-merge shifting loop (same physical length, last slot cleared),
paired with the function's return value `narr - 1`, the new logical
length. -/
def remove_cluster (carr : List cluster_t) (idx : Nat) :
    List cluster_t × Nat :=
  (carr.take idx ++ remove_clusterLoop (carr.drop idx), carr.length - 1)

/-- `obj_distance` of `proj3.c`: Euclidean distance between two points,
idealised over `ℝ`. -/
noncomputable def obj_distance (o1 o2 : obj_t) : ℝ :=
  Real.sqrt ((((o1.x - o2.x : ℚ) : ℝ)) ^ 2 + (((o1.y - o2.y : ℚ) : ℝ)) ^ 2)

/-- The pairwise distances scanned by every branch of `cluster_distance`:
the two nested loops enumerate `obj_distance(c1->obj[i], c2->obj[j])` with
`i` outer, `j` inner. -/
noncomputable def pairDists (c1 c2 : cluster_t) : List ℝ :=
  c1.obj.flatMap (fun a => c2.obj.map (fun b => obj_distance a b))

/-- `cluster_distance` of `proj3.c`.  The global `premium_case` selector is
passed explicitly: `0` = average linkage, `1` = minimum, `2` = maximum
(the value set by `main` from the command line).  For any other value the
C function returns an uninitialised `result`; the model returns `0`
there (that case is unreachable from `main`). -/
noncomputable def cluster_distance (m : Nat) (c1 c2 : cluster_t) : ℝ :=
  if m = 0 then
    (pairDists c1 c2).sum / ((c1.obj.length * c2.obj.length : Nat) : ℝ)
  else if m = 1 then
    (pairDists c1 c2).foldl
      (fun d nd => if d > nd then nd else d)
      (obj_distance (c1.obj.headD default) (c2.obj.headD default))
  else if m = 2 then
    (pairDists c1 c2).foldl
      (fun d nd => if d < nd then nd else d)
      (obj_distance (c1.obj.headD default) (c2.obj.headD default))
  else 0

/-- The pairs `(i, j)` scanned by the double loop of `find_neighbours` of
`proj3.c`, in scan order: `i` ascending, `j` ascending from `i + 1`
within each `i`. -/
def scanPairs (narr : Nat) : List (Nat × Nat) :=
  (List.range narr).flatMap
    (fun i => ((List.range narr).filter (fun j => decide (i < j))).map
      (fun j => (i, j)))

/-- The accumulation of `find_neighbours` of `proj3.c`: state is the
current `(distance, (*c1, *c2))`; each scanned pair is adopted when
`distance >= new_dist` (non-strict, so an exact tie replaces the stored
pair). -/
noncomputable def bestPair (f : Nat × Nat → ℝ) :
    ℝ × (Nat × Nat) → List (Nat × Nat) → ℝ × (Nat × Nat)
  | s, [] => s
  | s, p :: ps => bestPair f (if s.1 ≥ f p then (f p, p) else s) ps

/-- `find_neighbours` of `proj3.c`: `distance` starts as the distance of
clusters `0` and `1`; the output variables `*c1, *c2` are uninitialised in
`main` and modelled as starting at `(0, 0)` (they are always overwritten
when `narr ≥ 2`, which is proved below). -/
noncomputable def find_neighbours (m : Nat) (carr : List cluster_t) :
    Nat × Nat :=
  (bestPair
    (fun p => cluster_distance m (carr.getD p.1 default) (carr.getD p.2 default))
    (cluster_distance m (carr.getD 0 default) (carr.getD 1 default), (0, 0))
    (scanPairs carr.length)).2

/-- One iteration of the clustering loop of `main` of `proj3.c`:
`find_neighbours`, `merge_clusters(&clusters[c1], &clusters[c2])`,
`remove_cluster(clusters, size, c2)`, `size--`.  The resulting logical
collection is the first `size - 1` slots of the physical array. -/
noncomputable def step (m : Nat) (carr : List cluster_t) : List cluster_t :=
  let p := find_neighbours m carr
  let merged :=
    carr.set p.1 (merge_clusters (carr.getD p.1 default) (carr.getD p.2 default))
  (remove_cluster merged p.2).1.take (carr.length - 1)

/-- The clustering loop `while (size > narr) { ... }` of `main` of
`proj3.c`, with explicit fuel and an iteration counter.  `n` is the
requested final cluster count (`narr` in `main`). -/
noncomputable def runAux (m n : Nat) : Nat → List cluster_t → List cluster_t × Nat
  | 0, carr => (carr, 0)
  | fuel + 1, carr =>
      if n < carr.length then
        let r := runAux m n fuel (step m carr)
        (r.1, r.2 + 1)
      else (carr, 0)

/-- The clustering driver of `main` of `proj3.c`: iterate until the count
reaches `n`.  Fuel `carr.length` always suffices (proved below). -/
noncomputable def run (m n : Nat) (carr : List cluster_t) :
    List cluster_t × Nat :=
  runAux m n carr.length carr

/-- All objects of a collection, in slot order. -/
def allObjs (carr : List cluster_t) : List obj_t := carr.flatMap (·.obj)

/-- All point ids of a collection, in slot order. -/
def allIds (carr : List cluster_t) : List Int := (allObjs carr).map (·.id)

/-- The linkage-method selection of `main` of `proj3.c` (lines 495-506):
`premium_case` defaults to `0` (average); `--min` selects `1`, `--max`
selects `2`; any other string leaves `0`. -/
def select_method (arg : String) : Nat :=
  if arg = "--min" then 1 else if arg = "--max" then 2 else 0

/-- The digit-consuming loop of `strtol(argv[2], &fail, 10)` as used by
`main`: consume a maximal prefix of decimal digits, returning the value
and the unconsumed rest. -/
def parseDigits : List Char → Nat → Nat × List Char
  | [], acc => (acc, [])
  | c :: cs, acc =>
      if c.isDigit then parseDigits cs (10 * acc + (c.toNat - 48))
      else (acc, c :: cs)

/-- `strtol(s, &fail, 10)` as used by `main` of `proj3.c`: an optional
sign followed by a maximal run of digits; the second component is the
string left at `fail`. -/
def strtol10 (s : String) : Int × String :=
  match s.data with
  | '-' :: cs =>
      let r := parseDigits cs 0
      (-(r.1 : Int), String.mk r.2)
  | cs =>
      let r := parseDigits cs 0
      ((r.1 : Int), String.mk r.2)

/-- The argument-validation and exit-status logic of `main` of `proj3.c`.
`args` is the argument vector (`args.length = argc`, program name at
index 0) and `loadSize` the result of `load_clusters` (0 on load failure,
an external collaborator).  Returns the exit status together with the
selected `premium_case`.  The clustering loop itself cannot fail and is
irrelevant to the exit status, so it is not repeated here. -/
def main_model (args : List String) (loadSize : Nat) : Int × Nat :=
  if args.length < 2 then (-1, 0)
  else
    let method := if 3 < args.length then select_method (args.getD 3 "") else 0
    if 2 < args.length ∧ (strtol10 (args.getD 2 "")).2 ≠ "" then (-1, method)
    else
      let narr : Int := if 2 < args.length then (strtol10 (args.getD 2 "")).1 else 1
      if 2 < args.length ∧ narr ≤ 0 then (-1, method)
      else if loadSize = 0 then (-1, method)
      else if narr > (loadSize : Int) then (-1, method)
      else (0, method)

/-! ## Basic container lemmas -/

/-- With a successful allocation, `append_cluster` appends exactly one
object. -/
theorem append_cluster_obj (c : cluster_t) (o : obj_t) :
    (append_cluster true c o).obj = c.obj ++ [o] := by
  unfold append_cluster resize_cluster
  by_cases h : growCap c.capacity c.obj.length ≤ c.capacity <;> simp [h]

/-- Folding `append_cluster` over a list appends the whole list. -/
theorem foldl_append_cluster_obj (l : List obj_t) (c : cluster_t) :
    (l.foldl (append_cluster true) c).obj = c.obj ++ l := by
  induction l generalizing c with
  | nil => simp
  | cons a as ih => simp [List.foldl_cons, ih, append_cluster_obj]

/-- The objects of a merged cluster: the concatenation, sorted by id. -/
theorem merge_clusters_obj (c1 c2 : cluster_t) :
    (merge_clusters c1 c2).obj = (c1.obj ++ c2.obj).insertionSort idLE := by
  simp [merge_clusters, sort_cluster, foldl_append_cluster_obj]

/-- Merging permutes the concatenation of the two object lists. -/
theorem merge_clusters_obj_perm (c1 c2 : cluster_t) :
    (merge_clusters c1 c2).obj.Perm (c1.obj ++ c2.obj) := by
  rw [merge_clusters_obj]; exact List.perm_insertionSort idLE _

/-- The merged object list is sorted by id (non-strictly). -/
theorem merge_clusters_obj_sorted (c1 c2 : cluster_t) :
    List.Sorted idLE (merge_clusters c1 c2).obj := by
  rw [merge_clusters_obj]; exact List.sorted_insertionSort idLE _

/-- The cluster written by `remove_cluster`'s loop into a shifted slot:
the cleared slot with the next slot's cluster merged in. -/
def shiftCopy (d : cluster_t) : cluster_t := merge_clusters ⟨0, []⟩ d

theorem shiftCopy_obj (d : cluster_t) :
    (shiftCopy d).obj = d.obj.insertionSort idLE := by
  simp [shiftCopy, merge_clusters_obj]

theorem shiftCopy_obj_perm (d : cluster_t) : (shiftCopy d).obj.Perm d.obj := by
  rw [shiftCopy_obj]; exact List.perm_insertionSort idLE _

theorem shiftCopy_obj_of_sorted {d : cluster_t} (h : List.Sorted idLE d.obj) :
    (shiftCopy d).obj = d.obj := by
  rw [shiftCopy_obj, h.insertionSort_eq]

/-- Closed form of `remove_cluster`'s loop: every slot after the first is
copied (via clear + merge, i.e. re-sorted) one slot earlier, and the last
slot is cleared. -/
theorem remove_clusterLoop_eq (l : List cluster_t) (h : l ≠ []) :
    remove_clusterLoop l = l.tail.map shiftCopy ++ [(⟨0, []⟩ : cluster_t)] := by
  induction l with
  | nil => exact absurd rfl h
  | cons c cs ih =>
    cases cs with
    | nil => rfl
    | cons d rest =>
      show merge_clusters (clear_cluster c) d :: remove_clusterLoop (d :: rest) = _
      rw [ih (by simp)]
      simp [clear_cluster, shiftCopy]

/-- The physical array produced by `remove_cluster`. -/
theorem remove_cluster_fst (carr : List cluster_t) (idx : Nat)
    (h : idx < carr.length) :
    (remove_cluster carr idx).1
      = carr.take idx ++ ((carr.drop (idx + 1)).map shiftCopy
          ++ [(⟨0, []⟩ : cluster_t)]) := by
  have hdrop : carr.drop idx ≠ [] := by
    simp [List.drop_eq_nil_iff]; omega
  show carr.take idx ++ remove_clusterLoop (carr.drop idx) = _
  rw [remove_clusterLoop_eq _ hdrop, List.tail_drop]

/-- The logical collection after `remove_cluster`: first `narr - 1` slots
of the physical array. -/
theorem remove_cluster_logical (carr : List cluster_t) (idx : Nat)
    (h : idx < carr.length) :
    (remove_cluster carr idx).1.take ((remove_cluster carr idx).2)
      = carr.take idx ++ (carr.drop (idx + 1)).map shiftCopy := by
  have h2 : (remove_cluster carr idx).2 = carr.length - 1 := rfl
  rw [remove_cluster_fst _ _ h, h2, ← List.append_assoc]
  refine List.take_left' ?_
  simp [List.length_take, List.length_drop]
  omega

theorem remove_cluster_logical_length (carr : List cluster_t) (idx : Nat)
    (h : idx < carr.length) :
    ((remove_cluster carr idx).1.take ((remove_cluster carr idx).2)).length
      = carr.length - 1 := by
  rw [remove_cluster_logical _ _ h]
  simp [List.length_take, List.length_drop]
  omega

theorem remove_cluster_logical_getD_lt {carr : List cluster_t} {idx k : Nat}
    (h : idx < carr.length) (hk : k < idx) :
    ((remove_cluster carr idx).1.take ((remove_cluster carr idx).2)).getD k default
      = carr.getD k default := by
  rw [remove_cluster_logical _ _ h]
  rw [List.getD_eq_getElem?_getD, List.getD_eq_getElem?_getD]
  rw [List.getElem?_append_left (by simp [List.length_take]; omega),
    List.getElem?_take_of_lt hk]

theorem remove_cluster_logical_getD_ge {carr : List cluster_t} {idx k : Nat}
    (h : idx < carr.length) (hk1 : idx ≤ k) (hk2 : k < carr.length - 1) :
    ((remove_cluster carr idx).1.take ((remove_cluster carr idx).2)).getD k default
      = shiftCopy (carr.getD (k + 1) default) := by
  rw [remove_cluster_logical _ _ h]
  have htk : (carr.take idx).length = idx := by simp [List.length_take]; omega
  rw [List.getD_eq_getElem?_getD,
    List.getElem?_append_right (by rw [htk]; exact hk1), htk]
  have hkk : idx + 1 + (k - idx) = k + 1 := by omega
  rw [List.getElem?_map, List.getElem?_drop, hkk]
  have hlt : k + 1 < carr.length := by omega
  rw [List.getElem?_eq_getElem hlt]
  rw [List.getD_eq_getElem?_getD, List.getElem?_eq_getElem hlt]
  rfl

theorem allObjs_append (l₁ l₂ : List cluster_t) :
    allObjs (l₁ ++ l₂) = allObjs l₁ ++ allObjs l₂ := by
  simp [allObjs]

theorem allObjs_map_shiftCopy_perm (l : List cluster_t) :
    (allObjs (l.map shiftCopy)).Perm (allObjs l) := by
  induction l with
  | nil => simp [allObjs]
  | cons c cs ih =>
    simpa [allObjs] using (shiftCopy_obj_perm c).append ih

/-! ## C4: correctness of `remove_cluster` -/

/-- **C4**: for every collection of length `count ≥ 1` and every valid
index `idx < count`, `remove_cluster` produces a collection (the physical
array restricted to the returned logical length) in which the cluster
formerly at `idx` is gone, every cluster formerly at `k > idx` occupies
`k - 1` with its contents preserved (its object multiset always; its exact
object sequence whenever it was sorted by id, which every cluster of the
program is), the logical length is `count - 1` (the returned value), and
no point is lost or duplicated across the whole collection (the objects of
the result are a permutation of the objects of the collection with slot
`idx` erased). -/
theorem remove_cluster_correct (carr : List cluster_t) (idx : Nat)
    (h : idx < carr.length) :
    (remove_cluster carr idx).2 = carr.length - 1 ∧
    ((remove_cluster carr idx).1.take ((remove_cluster carr idx).2)).length
        = carr.length - 1 ∧
    (∀ k, k < idx →
      ((remove_cluster carr idx).1.take ((remove_cluster carr idx).2)).getD k default
        = carr.getD k default) ∧
    (∀ k, idx < k → k < carr.length →
      ((((remove_cluster carr idx).1.take ((remove_cluster carr idx).2)).getD (k - 1) default).obj.Perm
          (carr.getD k default).obj ∧
        (List.Sorted idLE (carr.getD k default).obj →
          (((remove_cluster carr idx).1.take ((remove_cluster carr idx).2)).getD (k - 1) default).obj
            = (carr.getD k default).obj))) ∧
    (allObjs ((remove_cluster carr idx).1.take ((remove_cluster carr idx).2))).Perm
        (allObjs (carr.eraseIdx idx)) := by
  refine ⟨rfl, remove_cluster_logical_length _ _ h, ?_, ?_, ?_⟩
  · intro k hk
    exact remove_cluster_logical_getD_lt h hk
  · intro k hk1 hk2
    have hgd : ((remove_cluster carr idx).1.take ((remove_cluster carr idx).2)).getD (k - 1) default
        = shiftCopy (carr.getD k default) := by
      have := @remove_cluster_logical_getD_ge carr idx (k - 1) h (by omega) (by omega)
      rwa [show k - 1 + 1 = k by omega] at this
    rw [hgd]
    exact ⟨shiftCopy_obj_perm _, fun hs => shiftCopy_obj_of_sorted hs⟩
  · rw [remove_cluster_logical _ _ h, allObjs_append,
      List.eraseIdx_eq_take_drop_succ, allObjs_append]
    exact List.Perm.append_left _ (allObjs_map_shiftCopy_perm _)

/-- Concrete three-cluster collection used by witnesses. -/
def w4carr : List cluster_t :=
  [⟨1, [⟨5, 0, 0⟩]⟩, ⟨1, [⟨7, 1, 1⟩]⟩, ⟨2, [⟨2, 2, 2⟩, ⟨9, 3, 3⟩]⟩]

/-- Concrete instance of the `remove_cluster` specification: a
three-cluster collection, removing the middle slot. -/
theorem remove_cluster_correct_witness :
    (1 : Nat) < w4carr.length ∧
    ((remove_cluster w4carr 1).2 = w4carr.length - 1 ∧
      ((remove_cluster w4carr 1).1.take ((remove_cluster w4carr 1).2)).length
          = w4carr.length - 1 ∧
      (∀ k, k < 1 →
        ((remove_cluster w4carr 1).1.take ((remove_cluster w4carr 1).2)).getD k default
          = w4carr.getD k default) ∧
      (∀ k, 1 < k → k < w4carr.length →
        ((((remove_cluster w4carr 1).1.take ((remove_cluster w4carr 1).2)).getD (k - 1) default).obj.Perm
            (w4carr.getD k default).obj ∧
          (List.Sorted idLE (w4carr.getD k default).obj →
            (((remove_cluster w4carr 1).1.take ((remove_cluster w4carr 1).2)).getD (k - 1) default).obj
              = (w4carr.getD k default).obj))) ∧
      (allObjs ((remove_cluster w4carr 1).1.take ((remove_cluster w4carr 1).2))).Perm
          (allObjs (w4carr.eraseIdx 1))) :=
  ⟨by decide, remove_cluster_correct w4carr 1 (by decide)⟩

/-! ## C7: sorted-by-id invariant after merging -/

/-- **C7**: for every target cluster and every source cluster with
pairwise-distinct ids across both, after `merge_clusters` the target's
element sequence is strictly ascending by id; since `merge_clusters` ends
with `sort_cluster`, this is the invariant re-established by every merge
operation. -/
theorem merge_clusters_strictly_sorted (c1 c2 : cluster_t)
    (h : (((c1.obj ++ c2.obj).map (fun o => o.id)).Nodup)) :
    (merge_clusters c1 c2).obj.Pairwise (fun a b => a.id < b.id) := by
  have hs : List.Sorted idLE (merge_clusters c1 c2).obj :=
    merge_clusters_obj_sorted c1 c2
  have hp : (merge_clusters c1 c2).obj.Perm (c1.obj ++ c2.obj) :=
    merge_clusters_obj_perm c1 c2
  have hnd : (((merge_clusters c1 c2).obj.map (fun o => o.id)).Nodup) :=
    ((hp.map (fun o => o.id)).nodup_iff).mpr h
  have hne : (merge_clusters c1 c2).obj.Pairwise (fun a b => a.id ≠ b.id) :=
    List.pairwise_map.mp hnd
  exact (hs.and hne).imp (fun hab => lt_of_le_of_ne hab.1 hab.2)

/-- Concrete instance of the merge sorted-invariant: merging an unsorted
pair of singleton-and-double clusters yields a strictly ascending result. -/
theorem merge_clusters_strictly_sorted_witness :
    ((((⟨1, [⟨3, 0, 0⟩]⟩ : cluster_t).obj ++ (⟨2, [⟨1, 1, 1⟩, ⟨2, 1, 2⟩]⟩ : cluster_t).obj).map
        (fun o => o.id)).Nodup) ∧
    (merge_clusters ⟨1, [⟨3, 0, 0⟩]⟩ ⟨2, [⟨1, 1, 1⟩, ⟨2, 1, 2⟩]⟩).obj.Pairwise
      (fun a b => a.id < b.id) :=
  ⟨by decide, merge_clusters_strictly_sorted _ _ (by decide)⟩

/-! ## C8: allocation failure handling -/

/-- **C8** is refuted by the code: with a failing allocation,
`resize_cluster` itself does surface the failure (returns `NULL`,
modelled `none`), but `append_cluster` — which invokes it precisely when
the cluster is full — ignores the returned value and proceeds as if the
growth had succeeded: the object is stored and `size` becomes 1 while
`capacity` is still 0 (in C, a write past the end of the unallocated
buffer; no error ever reaches the caller).  This contradicts the spec's
"fails with AllocationFailure ... surfaced to the caller", which is
clearly the intent; the unchecked `resize_cluster` call is a slip. -/
theorem append_cluster_ignores_allocation_failure :
    resize_cluster false ⟨0, []⟩ (growCap 0 0) = none ∧
    append_cluster false ⟨0, []⟩ ⟨1, 0, 0⟩ = ⟨0, [⟨1, 0, 0⟩]⟩ := by
  have hg : growCap 0 0 = 10 := by
    rw [growCap, if_pos (le_refl 0), growCap, CLUSTER_CHUNK]
    norm_num
  constructor
  · rw [hg]; rfl
  · show (⟨((resize_cluster false ⟨0, []⟩ (growCap 0 (List.length []))).getD ⟨0, []⟩).capacity,
      ((resize_cluster false ⟨0, []⟩ (growCap 0 (List.length []))).getD ⟨0, []⟩).obj ++ [⟨1, 0, 0⟩]⟩ : cluster_t) = _
    rw [show growCap 0 (List.length ([] : List obj_t)) = 10 from hg]
    rfl

/-! ## C3: the nearest-pair search -/

/-- Scan order of `find_neighbours`'s double loop: `i` ascending, then `j`
ascending within each `i`. -/
def scanLT (p q : Nat × Nat) : Prop :=
  p.1 < q.1 ∨ (p.1 = q.1 ∧ p.2 < q.2)

theorem scanLT_asymm {p q : Nat × Nat} (h : scanLT p q) : ¬ scanLT q p := by
  rcases h with h | ⟨h, h'⟩ <;> rintro (g | ⟨g, g'⟩) <;> omega

theorem mem_scanPairs {narr : Nat} {p : Nat × Nat} :
    p ∈ scanPairs narr ↔ p.1 < p.2 ∧ p.2 < narr := by
  rcases p with ⟨a, b⟩
  simp only [scanPairs, List.mem_flatMap, List.mem_map, List.mem_filter,
    List.mem_range, Prod.mk.injEq]
  constructor
  · rintro ⟨i, hi, j, ⟨hj, hij⟩, rfl, rfl⟩
    simp only [decide_eq_true_eq] at hij
    exact ⟨hij, hj⟩
  · rintro ⟨hab, hb⟩
    exact ⟨a, by omega, b, ⟨hb, by simp [hab]⟩, rfl, rfl⟩

theorem pairwise_scanPairs (narr : Nat) : (scanPairs narr).Pairwise scanLT := by
  rw [scanPairs, List.pairwise_flatMap]
  constructor
  · intro i _
    rw [List.pairwise_map]
    exact ((List.pairwise_lt_range narr).filter _).imp
      (fun h => Or.inr ⟨rfl, h⟩)
  · exact (List.pairwise_lt_range narr).imp
      (fun hii x hx y hy => by
        simp only [List.mem_map] at hx hy
        obtain ⟨jx, _, rfl⟩ := hx
        obtain ⟨jy, _, rfl⟩ := hy
        exact Or.inl hii)

/-- One unfolding step of the fold of `find_neighbours`. -/
theorem bestPair_cons (f : Nat × Nat → ℝ) (d₀ : ℝ) (b₀ a : Nat × Nat)
    (as : List (Nat × Nat)) :
    bestPair f (d₀, b₀) (a :: as)
      = bestPair f (if d₀ ≥ f a then (f a, a) else (d₀, b₀)) as := rfl

/-- Fold invariant of `find_neighbours` once the stored pair is one that
was actually scanned: the final state holds the minimum distance, attained
at the stored pair, and no strictly later scanned pair attains it. -/
theorem bestPair_achieved (f : Nat × Nat → ℝ) :
    ∀ (ps : List (Nat × Nat)) (b : Nat × Nat),
      ps.Pairwise scanLT → (∀ p ∈ ps, scanLT b p) →
      (bestPair f (f b, b) ps).2 ∈ b :: ps ∧
      (bestPair f (f b, b) ps).1 = f (bestPair f (f b, b) ps).2 ∧
      (∀ p ∈ b :: ps, (bestPair f (f b, b) ps).1 ≤ f p) ∧
      (∀ p ∈ b :: ps, scanLT (bestPair f (f b, b) ps).2 p →
        (bestPair f (f b, b) ps).1 < f p) := by
  intro ps
  induction ps with
  | nil =>
    intro b _ _
    refine ⟨List.mem_cons_self _ _, rfl, ?_, ?_⟩
    · intro p hp
      rw [List.mem_singleton] at hp
      subst hp; exact le_refl _
    · intro p hp hlt
      rw [List.mem_singleton] at hp
      subst hp
      exact absurd hlt (scanLT_asymm hlt)
  | cons a as ih =>
    intro b hsort hb
    have hsa : ∀ p ∈ as, scanLT a p := (List.pairwise_cons.mp hsort).1
    have hsort' : as.Pairwise scanLT := (List.pairwise_cons.mp hsort).2
    have hba : scanLT b a := hb a (List.mem_cons_self _ _)
    rw [bestPair_cons]
    by_cases hcmp : f b ≥ f a
    · rw [if_pos hcmp]
      obtain ⟨hmem, heq, hle, hstr⟩ := ih a hsort' hsa
      refine ⟨List.mem_cons_of_mem _ hmem, heq, ?_, ?_⟩
      · intro p hp
        rcases List.mem_cons.mp hp with rfl | hp'
        · exact le_trans (hle a (List.mem_cons_self _ _)) hcmp
        · exact hle p hp'
      · intro p hp hlt
        rcases List.mem_cons.mp hp with rfl | hp'
        · exfalso
          have hbr : scanLT p (bestPair f (f a, a) as).2 := by
            rcases List.mem_cons.mp hmem with hr | hr
            · rw [hr]; exact hba
            · rcases hb _ (List.mem_cons_of_mem _ hr) with h | h
              · exact Or.inl h
              · exact Or.inr h
          exact scanLT_asymm hbr hlt
        · exact hstr p hp' hlt
    · rw [if_neg hcmp]
      push_neg at hcmp
      have hb' : ∀ p ∈ as, scanLT b p := fun p hp => hb p (List.mem_cons_of_mem _ hp)
      obtain ⟨hmem, heq, hle, hstr⟩ := ih b hsort' hb'
      refine ⟨?_, heq, ?_, ?_⟩
      · rcases List.mem_cons.mp hmem with hr | hr
        · rw [hr]; exact List.mem_cons_self _ _
        · exact List.mem_cons_of_mem _ (List.mem_cons_of_mem _ hr)
      · intro p hp
        rcases List.mem_cons.mp hp with rfl | hp'
        · exact hle p (List.mem_cons_self _ _)
        · rcases List.mem_cons.mp hp' with rfl | hp''
          · exact le_trans (hle b (List.mem_cons_self _ _)) (le_of_lt hcmp)
          · exact hle p (List.mem_cons_of_mem _ hp'')
      · intro p hp hlt
        rcases List.mem_cons.mp hp with rfl | hp'
        · exact hstr p (List.mem_cons_self _ _) hlt
        · rcases List.mem_cons.mp hp' with rfl | hp''
          · exact lt_of_le_of_lt (hle b (List.mem_cons_self _ _)) hcmp
          · exact hstr p (List.mem_cons_of_mem _ hp'') hlt

/-- Fold invariant of `find_neighbours` from an arbitrary initial state
whose distance is attained by some scanned pair (in the program, by the
pair `(0, 1)` whose distance initialises `distance`). -/
theorem bestPair_spec (f : Nat × Nat → ℝ) :
    ∀ (ps : List (Nat × Nat)) (d₀ : ℝ) (b₀ : Nat × Nat),
      ps.Pairwise scanLT → (∃ p ∈ ps, f p ≤ d₀) →
      (bestPair f (d₀, b₀) ps).2 ∈ ps ∧
      (bestPair f (d₀, b₀) ps).1 = f (bestPair f (d₀, b₀) ps).2 ∧
      (∀ p ∈ ps, (bestPair f (d₀, b₀) ps).1 ≤ f p) ∧
      (∀ p ∈ ps, scanLT (bestPair f (d₀, b₀) ps).2 p →
        (bestPair f (d₀, b₀) ps).1 < f p) := by
  intro ps
  induction ps with
  | nil =>
    intro d₀ b₀ _ hex
    obtain ⟨p, hp, _⟩ := hex
    exact absurd hp (List.not_mem_nil p)
  | cons a as ih =>
    intro d₀ b₀ hsort hex
    have hsa : ∀ p ∈ as, scanLT a p := (List.pairwise_cons.mp hsort).1
    have hsort' : as.Pairwise scanLT := (List.pairwise_cons.mp hsort).2
    rw [bestPair_cons]
    by_cases hcmp : d₀ ≥ f a
    · rw [if_pos hcmp]
      obtain ⟨hmem, heq, hle, hstr⟩ := bestPair_achieved f as a hsort' hsa
      exact ⟨hmem, heq, hle, hstr⟩
    · rw [if_neg hcmp]
      push_neg at hcmp
      obtain ⟨p, hp, hple⟩ := hex
      have hpas : p ∈ as := by
        rcases List.mem_cons.mp hp with rfl | hp'
        · exact absurd (lt_of_lt_of_le hcmp hple) (lt_irrefl _)
        · exact hp'
      obtain ⟨hmem, heq, hle, hstr⟩ := ih d₀ b₀ hsort' ⟨p, hpas, hple⟩
      refine ⟨List.mem_cons_of_mem _ hmem, heq, ?_, ?_⟩
      · intro q hq
        rcases List.mem_cons.mp hq with rfl | hq'
        · exact le_of_lt (lt_of_le_of_lt (le_trans (hle p hpas) hple) hcmp)
        · exact hle q hq'
      · intro q hq hlt
        rcases List.mem_cons.mp hq with rfl | hq'
        · exact lt_of_le_of_lt (le_trans (hle p hpas) hple) hcmp
        · exact hstr q hq' hlt

/-- Every property of the scan fold, transported to `find_neighbours`. -/
theorem find_neighbours_master (m : Nat) (carr : List cluster_t)
    (h2 : 2 ≤ carr.length) :
    (find_neighbours m carr) ∈ scanPairs carr.length ∧
    (∀ p ∈ scanPairs carr.length,
      cluster_distance m (carr.getD (find_neighbours m carr).1 default)
          (carr.getD (find_neighbours m carr).2 default)
        ≤ cluster_distance m (carr.getD p.1 default) (carr.getD p.2 default)) ∧
    (∀ p ∈ scanPairs carr.length, scanLT (find_neighbours m carr) p →
      cluster_distance m (carr.getD (find_neighbours m carr).1 default)
          (carr.getD (find_neighbours m carr).2 default)
        < cluster_distance m (carr.getD p.1 default) (carr.getD p.2 default)) := by
  have hex : ∃ p ∈ scanPairs carr.length,
      (fun p : Nat × Nat => cluster_distance m (carr.getD p.1 default)
        (carr.getD p.2 default)) p
      ≤ cluster_distance m (carr.getD 0 default) (carr.getD 1 default) :=
    ⟨(0, 1), mem_scanPairs.mpr ⟨Nat.zero_lt_one, by omega⟩, le_refl _⟩
  obtain ⟨hmem, heq, hle, hstr⟩ :=
    bestPair_spec
      (fun p : Nat × Nat => cluster_distance m (carr.getD p.1 default)
        (carr.getD p.2 default))
      (scanPairs carr.length)
      (cluster_distance m (carr.getD 0 default) (carr.getD 1 default))
      (0, 0) (pairwise_scanPairs _) hex
  refine ⟨hmem, ?_, ?_⟩
  · intro p hp
    have h := hle p hp
    rwa [heq] at h
  · intro p hp hsl
    have h := hstr p hp hsl
    rwa [heq] at h

/-- With at least two clusters, `find_neighbours` always returns valid
indices `i < j < narr` (regardless of cluster contents). -/
theorem find_neighbours_valid (m : Nat) (carr : List cluster_t)
    (h2 : 2 ≤ carr.length) :
    (find_neighbours m carr).1 < (find_neighbours m carr).2 ∧
    (find_neighbours m carr).2 < carr.length :=
  mem_scanPairs.mp (find_neighbours_master m carr h2).1

/-- **C3**: for every collection of `count ≥ 2` nonempty clusters and
every linkage method, `find_neighbours` returns indices `(i, j)` with
`i < j < count` whose cluster distance is the minimum over all unordered
pairs; on exact ties the pair returned is the last one encountered in
scan order (`i` ascending, then `j` ascending): no pair strictly later in
scan order attains the minimum. -/
theorem find_neighbours_correct (m : Nat) (carr : List cluster_t)
    (h2 : 2 ≤ carr.length) (hne : ∀ c ∈ carr, c.obj ≠ []) :
    (find_neighbours m carr).1 < (find_neighbours m carr).2 ∧
    (find_neighbours m carr).2 < carr.length ∧
    (∀ p q : Nat, p < q → q < carr.length →
      cluster_distance m (carr.getD (find_neighbours m carr).1 default)
          (carr.getD (find_neighbours m carr).2 default)
        ≤ cluster_distance m (carr.getD p default) (carr.getD q default)) ∧
    (∀ p q : Nat, p < q → q < carr.length →
      scanLT (find_neighbours m carr) (p, q) →
      cluster_distance m (carr.getD (find_neighbours m carr).1 default)
          (carr.getD (find_neighbours m carr).2 default)
        < cluster_distance m (carr.getD p default) (carr.getD q default)) := by
  obtain ⟨hvalid, hle, hstr⟩ := find_neighbours_master m carr h2
  obtain ⟨hv1, hv2⟩ := mem_scanPairs.mp hvalid
  refine ⟨hv1, hv2, ?_, ?_⟩
  · intro p q hpq hq
    exact hle (p, q) (mem_scanPairs.mpr ⟨hpq, hq⟩)
  · intro p q hpq hq hsl
    exact hstr (p, q) (mem_scanPairs.mpr ⟨hpq, hq⟩) hsl

/-- Concrete instance of the `find_neighbours` specification, on the
three-cluster collection `w4carr`. -/
theorem find_neighbours_correct_witness :
    (2 ≤ w4carr.length ∧ ∀ c ∈ w4carr, c.obj ≠ []) ∧
    ((find_neighbours 0 w4carr).1 < (find_neighbours 0 w4carr).2 ∧
      (find_neighbours 0 w4carr).2 < w4carr.length ∧
      (∀ p q : Nat, p < q → q < w4carr.length →
        cluster_distance 0 (w4carr.getD (find_neighbours 0 w4carr).1 default)
            (w4carr.getD (find_neighbours 0 w4carr).2 default)
          ≤ cluster_distance 0 (w4carr.getD p default) (w4carr.getD q default)) ∧
      (∀ p q : Nat, p < q → q < w4carr.length →
        scanLT (find_neighbours 0 w4carr) (p, q) →
        cluster_distance 0 (w4carr.getD (find_neighbours 0 w4carr).1 default)
            (w4carr.getD (find_neighbours 0 w4carr).2 default)
          < cluster_distance 0 (w4carr.getD p default) (w4carr.getD q default))) :=
  ⟨⟨by decide, by decide⟩, find_neighbours_correct 0 w4carr (by decide) (by decide)⟩

/-! ## C2: the driver loop terminates with exactly `n` clusters -/

theorem remove_clusterLoop_length (l : List cluster_t) :
    (remove_clusterLoop l).length = l.length := by
  induction l with
  | nil => rfl
  | cons c cs ih =>
    cases cs with
    | nil => rfl
    | cons d rest =>
      show (merge_clusters (clear_cluster c) d :: remove_clusterLoop (d :: rest)).length = _
      simp only [List.length_cons, ih]

/-- The physical array of `remove_cluster` keeps the array length. -/
theorem remove_cluster_fst_length (carr : List cluster_t) (idx : Nat) :
    (remove_cluster carr idx).1.length = carr.length := by
  show (carr.take idx ++ remove_clusterLoop (carr.drop idx)).length = _
  rw [List.length_append, remove_clusterLoop_length, List.length_take,
    List.length_drop]
  omega

/-- One driver iteration shrinks the logical collection by exactly one. -/
theorem step_length (m : Nat) (carr : List cluster_t) (h2 : 2 ≤ carr.length) :
    (step m carr).length = carr.length - 1 := by
  unfold step
  rw [List.length_take, remove_cluster_fst_length, List.length_set]
  omega

/-- Unfolding of one fueled driver iteration. -/
theorem runAux_succ (m n fuel : Nat) (carr : List cluster_t) :
    runAux m n (fuel + 1) carr
      = if n < carr.length then
          ((runAux m n fuel (step m carr)).1, (runAux m n fuel (step m carr)).2 + 1)
        else (carr, 0) := rfl

/-- With enough fuel, the driver returns exactly `n` clusters after
exactly `count - n` iterations. -/
theorem runAux_spec (m n : Nat) :
    ∀ (fuel : Nat) (carr : List cluster_t), 1 ≤ n → n ≤ carr.length →
      carr.length ≤ n + fuel →
      (runAux m n fuel carr).1.length = n ∧
      (runAux m n fuel carr).2 = carr.length - n := by
  intro fuel
  induction fuel with
  | zero =>
    intro carr h1 h2 h3
    have hx : carr.length = n := by omega
    show (carr.length = n ∧ 0 = carr.length - n)
    omega
  | succ f ih =>
    intro carr h1 h2 h3
    by_cases hlt : n < carr.length
    · have h2' : 2 ≤ carr.length := by omega
      have hstep := step_length m carr h2'
      have hrec := ih (step m carr) h1 (by omega) (by omega)
      rw [runAux_succ, if_pos hlt]
      exact ⟨hrec.1, by rw [hrec.2, hstep]; omega⟩
    · have hx : carr.length = n := by omega
      rw [runAux_succ, if_neg hlt]
      exact ⟨hx, by omega⟩

/-- **C2**: for every initial collection and every valid target
`1 ≤ n ≤ initialSize`, the clustering loop terminates after exactly
`initialSize - n` merge iterations and returns a collection of exactly
`n` clusters. -/
theorem run_terminates_exactly (m n : Nat) (carr : List cluster_t)
    (h1 : 1 ≤ n) (h2 : n ≤ carr.length) :
    (run m n carr).1.length = n ∧ (run m n carr).2 = carr.length - n :=
  runAux_spec m n carr.length carr h1 h2 (by omega)

/-- Concrete instance of the driver-termination result: three clusters
reduced to one. -/
theorem run_terminates_exactly_witness :
    (1 ≤ 1 ∧ 1 ≤ w4carr.length) ∧
    ((run 0 1 w4carr).1.length = 1 ∧ (run 0 1 w4carr).2 = w4carr.length - 1) :=
  ⟨⟨le_refl 1, by decide⟩, run_terminates_exactly 0 1 w4carr (le_refl 1) (by decide)⟩

/-! ## C1: conservation of points across driver iterations -/

/-- The multiset of all objects of a collection. -/
def objsMS (carr : List cluster_t) : Multiset obj_t := (allObjs carr : Multiset obj_t)

theorem objsMS_cons (c : cluster_t) (cs : List cluster_t) :
    objsMS (c :: cs) = (c.obj : Multiset obj_t) + objsMS cs := by
  simp [objsMS, allObjs]

/-- Removing slot `j` removes exactly that slot's objects. -/
theorem objsMS_eraseIdx (l : List cluster_t) :
    ∀ j, j < l.length →
      objsMS (l.eraseIdx j) + ((l.getD j default).obj : Multiset obj_t) = objsMS l := by
  induction l with
  | nil => intro j hj; simp at hj
  | cons c cs ih =>
    intro j hj
    cases j with
    | zero =>
      rw [List.eraseIdx_cons_zero, objsMS_cons]
      rw [show (c :: cs).getD 0 default = c from rfl]
      rw [add_comm]
    | succ j' =>
      rw [List.eraseIdx_cons_succ, objsMS_cons, objsMS_cons]
      rw [show (c :: cs).getD (j' + 1) default = cs.getD j' default from rfl]
      rw [add_assoc, ih j' (by simpa using hj)]

/-- Overwriting slot `i` exchanges exactly that slot's objects. -/
theorem objsMS_set (l : List cluster_t) (cnew : cluster_t) :
    ∀ i, i < l.length →
      objsMS (l.set i cnew) + ((l.getD i default).obj : Multiset obj_t)
        = objsMS l + (cnew.obj : Multiset obj_t) := by
  induction l with
  | nil => intro i hi; simp at hi
  | cons c cs ih =>
    intro i hi
    cases i with
    | zero =>
      rw [List.set_cons_zero, objsMS_cons, objsMS_cons]
      rw [show (c :: cs).getD 0 default = c from rfl]
      abel
    | succ i' =>
      rw [List.set_cons_succ, objsMS_cons, objsMS_cons]
      rw [show (c :: cs).getD (i' + 1) default = cs.getD i' default from rfl]
      rw [add_assoc, ih i' (by simpa using hi)]
      abel

/-- The logical result of `remove_cluster` has the object multiset of the
collection with slot `idx` erased. -/
theorem remove_cluster_objsMS (l : List cluster_t) (idx : Nat)
    (h : idx < l.length) :
    objsMS ((remove_cluster l idx).1.take (l.length - 1)) = objsMS (l.eraseIdx idx) := by
  have hperm : (allObjs ((remove_cluster l idx).1.take ((remove_cluster l idx).2))).Perm
      (allObjs (l.eraseIdx idx)) := by
    rw [remove_cluster_logical _ _ h, allObjs_append,
      List.eraseIdx_eq_take_drop_succ, allObjs_append]
    exact List.Perm.append_left _ (allObjs_map_shiftCopy_perm _)
  have h2 : (remove_cluster l idx).2 = l.length - 1 := rfl
  rw [h2] at hperm
  exact Multiset.coe_eq_coe.mpr hperm

/-- One driver iteration conserves the multiset of objects. -/
theorem step_objsMS (m : Nat) (carr : List cluster_t) (h2 : 2 ≤ carr.length) :
    objsMS (step m carr) = objsMS carr := by
  obtain ⟨hij, hjlen⟩ := find_neighbours_valid m carr h2
  unfold step
  have hmlen : (carr.set (find_neighbours m carr).1
      (merge_clusters (carr.getD (find_neighbours m carr).1 default)
        (carr.getD (find_neighbours m carr).2 default))).length = carr.length :=
    List.length_set _ _ _
  have hjm : (find_neighbours m carr).2 < (carr.set (find_neighbours m carr).1
      (merge_clusters (carr.getD (find_neighbours m carr).1 default)
        (carr.getD (find_neighbours m carr).2 default))).length := by
    rw [hmlen]; exact hjlen
  have hrem := remove_cluster_objsMS _ _ hjm
  rw [hmlen] at hrem
  rw [hrem]
  -- multiset bookkeeping: erase j from (set i Mi)
  have hgetj : ((carr.set (find_neighbours m carr).1
      (merge_clusters (carr.getD (find_neighbours m carr).1 default)
        (carr.getD (find_neighbours m carr).2 default))).getD
        (find_neighbours m carr).2 default)
      = carr.getD (find_neighbours m carr).2 default := by
    rw [List.getD_eq_getElem?_getD, List.getD_eq_getElem?_getD,
      List.getElem?_set_ne (by omega)]
    simp
  have hA := objsMS_eraseIdx _ _ hjm
  rw [hgetj] at hA
  have hB := objsMS_set carr
    (merge_clusters (carr.getD (find_neighbours m carr).1 default)
      (carr.getD (find_neighbours m carr).2 default))
    (find_neighbours m carr).1 (by omega)
  have hMi : ((merge_clusters (carr.getD (find_neighbours m carr).1 default)
      (carr.getD (find_neighbours m carr).2 default)).obj : Multiset obj_t)
      = ((carr.getD (find_neighbours m carr).1 default).obj : Multiset obj_t)
        + ((carr.getD (find_neighbours m carr).2 default).obj : Multiset obj_t) := by
    rw [Multiset.coe_add]
    exact Multiset.coe_eq_coe.mpr (merge_clusters_obj_perm _ _)
  rw [hMi] at hB
  -- from hA : E + cj = S, hB : S + ci = C + (ci + cj), conclude E = C
  have hsum : objsMS ((carr.set (find_neighbours m carr).1
        (merge_clusters (carr.getD (find_neighbours m carr).1 default)
          (carr.getD (find_neighbours m carr).2 default))).eraseIdx
        (find_neighbours m carr).2)
      + (((carr.getD (find_neighbours m carr).2 default).obj : Multiset obj_t)
        + ((carr.getD (find_neighbours m carr).1 default).obj : Multiset obj_t))
      = objsMS carr
      + (((carr.getD (find_neighbours m carr).2 default).obj : Multiset obj_t)
        + ((carr.getD (find_neighbours m carr).1 default).obj : Multiset obj_t)) := by
    rw [← add_assoc, hA, hB]
    abel
  exact add_right_cancel hsum

/-- The object multiset is invariant under any number of driver
iterations. -/
theorem runAux_objsMS (m n : Nat) (h1 : 1 ≤ n) :
    ∀ (fuel : Nat) (carr : List cluster_t),
      objsMS ((runAux m n fuel carr).1) = objsMS carr := by
  intro fuel
  induction fuel with
  | zero => intro carr; rfl
  | succ f ih =>
    intro carr
    by_cases hlt : n < carr.length
    · rw [runAux_succ, if_pos hlt]
      show objsMS (runAux m n f (step m carr)).1 = _
      rw [ih (step m carr), step_objsMS m carr (by omega)]
    · rw [runAux_succ, if_neg hlt]

/-- The sum of the `size` fields is the total number of stored objects. -/
theorem sizes_sum_eq_allObjs_length (l : List cluster_t) :
    (l.map cluster_t.size).sum = (allObjs l).length := by
  induction l with
  | nil => rfl
  | cons c cs ih =>
    simp only [allObjs, List.flatMap_cons, List.map_cons, List.sum_cons,
      List.length_append, cluster_t.size]
    rw [ih]; rfl

theorem mem_allIds_of_mem {cs : List cluster_t} {d : cluster_t} {x : Int}
    (hd : d ∈ cs) (hx : x ∈ d.obj.map (fun o => o.id)) : x ∈ allIds cs := by
  simp only [allIds, allObjs, List.mem_map, List.mem_flatMap] at hx ⊢
  obtain ⟨o, ho, rfl⟩ := hx
  exact ⟨o, ⟨d, hd, ho⟩, rfl⟩

/-- In a collection whose ids are pairwise distinct, an id that occurs at
all occurs in exactly one cluster. -/
theorem countP_contains_eq_one :
    ∀ (l : List cluster_t) (x : Int), (allIds l).Nodup → x ∈ allIds l →
      l.countP (fun c => decide (x ∈ c.obj.map (fun o => o.id))) = 1 := by
  intro l
  induction l with
  | nil => intro x _ hx; simp [allIds, allObjs] at hx
  | cons c cs ih =>
    intro x hnd hx
    have hsplit : allIds (c :: cs) = c.obj.map (fun o => o.id) ++ allIds cs := by
      simp [allIds, allObjs]
    rw [hsplit] at hnd hx
    rw [List.countP_cons]
    by_cases hc : x ∈ c.obj.map (fun o => o.id)
    · have hdisj := (List.nodup_append.mp hnd).2.2
      have hxcs : x ∉ allIds cs := fun hmem => hdisj hc hmem
      have h0 : cs.countP (fun d => decide (x ∈ d.obj.map (fun o => o.id))) = 0 := by
        rw [List.countP_eq_zero]
        intro d hd
        simp only [decide_eq_true_eq]
        intro hxd
        exact hxcs (mem_allIds_of_mem hd hxd)
      rw [h0, if_pos (by simpa using hc)]
    · have hxcs : x ∈ allIds cs := by
        rcases List.mem_append.mp hx with h | h
        · exact absurd h hc
        · exact h
      have hnd' : (allIds cs).Nodup := (List.nodup_append.mp hnd).2.1
      rw [ih x hnd' hxcs, if_neg (by simpa using hc)]

/-- **C1**: for every initial collection with pairwise-distinct point ids
(as the data source guarantees) and every valid target `n ≥ 1`, after any
number of clustering-driver iterations (any fuel; each iteration is
`find_neighbours`, `merge_clusters`, `remove_cluster`), the sum of all
cluster sizes equals the original total point count, and every original
point id appears in exactly one cluster of the resulting collection. -/
theorem run_conserves_points (m n fuel : Nat) (carr : List cluster_t)
    (h1 : 1 ≤ n) (hnd : (allIds carr).Nodup) :
    ((runAux m n fuel carr).1.map cluster_t.size).sum
        = (carr.map cluster_t.size).sum ∧
    (∀ x, x ∈ allIds carr →
      (runAux m n fuel carr).1.countP
        (fun c => decide (x ∈ c.obj.map (fun o => o.id))) = 1) := by
  have hms := runAux_objsMS m n h1 fuel carr
  have hperm : (allObjs (runAux m n fuel carr).1).Perm (allObjs carr) :=
    Multiset.coe_eq_coe.mp hms
  constructor
  · rw [sizes_sum_eq_allObjs_length, sizes_sum_eq_allObjs_length]
    exact hperm.length_eq
  · intro x hx
    have hpermIds : (allIds (runAux m n fuel carr).1).Perm (allIds carr) :=
      hperm.map _
    exact countP_contains_eq_one _ x (hpermIds.nodup_iff.mpr hnd)
      ((hpermIds.mem_iff).mpr hx)

/-- Concrete instance of the conservation result: the three-cluster
collection `w4carr` driven for two iterations towards target 1. -/
theorem run_conserves_points_witness :
    (1 ≤ 1 ∧ (allIds w4carr).Nodup) ∧
    (((runAux 0 1 2 w4carr).1.map cluster_t.size).sum
        = (w4carr.map cluster_t.size).sum ∧
      (∀ x, x ∈ allIds w4carr →
        (runAux 0 1 2 w4carr).1.countP
          (fun c => decide (x ∈ c.obj.map (fun o => o.id))) = 1)) :=
  ⟨⟨le_refl 1, by decide⟩, run_conserves_points 0 1 2 w4carr (le_refl 1) (by decide)⟩

/-! ## C5, C6: properties of `cluster_distance` -/

theorem obj_distance_symm (o1 o2 : obj_t) :
    obj_distance o1 o2 = obj_distance o2 o1 := by
  unfold obj_distance
  congr 1
  push_cast
  ring

theorem sum_flatMap_cons_aux (g : obj_t → ℝ) (h : obj_t → List ℝ)
    (l : List obj_t) :
    (l.flatMap (fun b => g b :: h b)).sum = (l.map g).sum + (l.flatMap h).sum := by
  induction l with
  | nil => simp
  | cons b bs ih =>
    simp only [List.flatMap_cons, List.sum_append, List.sum_cons, List.map_cons, ih]
    ring

/-- Exchanging the two nested summation loops. -/
theorem list_sum_swap (f : obj_t → obj_t → ℝ) (l₁ l₂ : List obj_t) :
    (l₁.flatMap (fun a => l₂.map (fun b => f a b))).sum
      = (l₂.flatMap (fun b => l₁.map (fun a => f a b))).sum := by
  induction l₁ with
  | nil =>
    simp only [List.flatMap_nil, List.map_nil]
    rw [show (l₂.flatMap fun _ => ([] : List ℝ)) = []
      from List.flatMap_eq_nil_iff.mpr (fun x _ => rfl)]
  | cons a as ih =>
    simp only [List.flatMap_cons, List.sum_append, ih, List.map_cons]
    rw [sum_flatMap_cons_aux (fun b => f a b) (fun b => as.map (fun x => f x b)) l₂]

theorem pairDists_sum_symm (c1 c2 : cluster_t) :
    (pairDists c1 c2).sum = (pairDists c2 c1).sum := by
  unfold pairDists
  rw [list_sum_swap]
  have hfg : (fun b => List.map (fun a => obj_distance a b) c1.obj)
      = (fun b => List.map (fun a => obj_distance b a) c1.obj) := by
    funext b
    congr 1
    funext a
    exact obj_distance_symm a b
  rw [hfg]

theorem mem_pairDists {c1 c2 : cluster_t} {x : ℝ} :
    x ∈ pairDists c1 c2 ↔ ∃ a ∈ c1.obj, ∃ b ∈ c2.obj, obj_distance a b = x := by
  simp [pairDists]

/-- The strict-`>` running-minimum fold of the MIN branch computes a least
element of the initial value and the scanned list. -/
theorem foldl_min_spec (l : List ℝ) (d₀ : ℝ) :
    (l.foldl (fun d nd => if d > nd then nd else d) d₀) ∈ d₀ :: l ∧
    (∀ x ∈ d₀ :: l, (l.foldl (fun d nd => if d > nd then nd else d) d₀) ≤ x) := by
  induction l generalizing d₀ with
  | nil =>
    refine ⟨List.mem_cons_self _ _, ?_⟩
    intro x hx
    rw [List.mem_singleton] at hx
    subst hx; exact le_refl _
  | cons a as ih =>
    rw [List.foldl_cons]
    by_cases h : d₀ > a
    · rw [if_pos h]
      obtain ⟨hmem, hle⟩ := ih a
      refine ⟨List.mem_cons_of_mem _ hmem, ?_⟩
      intro x hx
      rcases List.mem_cons.mp hx with rfl | hx'
      · exact le_trans (hle a (List.mem_cons_self _ _)) (le_of_lt h)
      · exact hle x hx'
    · rw [if_neg h]
      push_neg at h
      obtain ⟨hmem, hle⟩ := ih d₀
      refine ⟨?_, ?_⟩
      · rcases List.mem_cons.mp hmem with hr | hr
        · rw [hr]; exact List.mem_cons_self _ _
        · exact List.mem_cons_of_mem _ (List.mem_cons_of_mem _ hr)
      · intro x hx
        rcases List.mem_cons.mp hx with rfl | hx'
        · exact hle x (List.mem_cons_self _ _)
        · rcases List.mem_cons.mp hx' with rfl | hx''
          · exact le_trans (hle d₀ (List.mem_cons_self _ _)) h
          · exact hle x (List.mem_cons_of_mem _ hx'')

/-- The strict-`<` running-maximum fold of the MAX branch computes a
greatest element of the initial value and the scanned list. -/
theorem foldl_max_spec (l : List ℝ) (d₀ : ℝ) :
    (l.foldl (fun d nd => if d < nd then nd else d) d₀) ∈ d₀ :: l ∧
    (∀ x ∈ d₀ :: l, x ≤ (l.foldl (fun d nd => if d < nd then nd else d) d₀)) := by
  induction l generalizing d₀ with
  | nil =>
    refine ⟨List.mem_cons_self _ _, ?_⟩
    intro x hx
    rw [List.mem_singleton] at hx
    subst hx; exact le_refl _
  | cons a as ih =>
    rw [List.foldl_cons]
    by_cases h : d₀ < a
    · rw [if_pos h]
      obtain ⟨hmem, hle⟩ := ih a
      refine ⟨List.mem_cons_of_mem _ hmem, ?_⟩
      intro x hx
      rcases List.mem_cons.mp hx with rfl | hx'
      · exact le_trans (le_of_lt h) (hle a (List.mem_cons_self _ _))
      · exact hle x hx'
    · rw [if_neg h]
      push_neg at h
      obtain ⟨hmem, hle⟩ := ih d₀
      refine ⟨?_, ?_⟩
      · rcases List.mem_cons.mp hmem with hr | hr
        · rw [hr]; exact List.mem_cons_self _ _
        · exact List.mem_cons_of_mem _ (List.mem_cons_of_mem _ hr)
      · intro x hx
        rcases List.mem_cons.mp hx with rfl | hx'
        · exact hle x (List.mem_cons_self _ _)
        · rcases List.mem_cons.mp hx' with rfl | hx''
          · exact le_trans h (hle d₀ (List.mem_cons_self _ _))
          · exact hle x (List.mem_cons_of_mem _ hx'')

theorem cluster_distance_avg (c1 c2 : cluster_t) :
    cluster_distance 0 c1 c2
      = (pairDists c1 c2).sum / ((c1.obj.length * c2.obj.length : Nat) : ℝ) := rfl

theorem cluster_distance_min (c1 c2 : cluster_t) :
    cluster_distance 1 c1 c2
      = (pairDists c1 c2).foldl (fun d nd => if d > nd then nd else d)
          (obj_distance (c1.obj.headD default) (c2.obj.headD default)) := rfl

theorem cluster_distance_max (c1 c2 : cluster_t) :
    cluster_distance 2 c1 c2
      = (pairDists c1 c2).foldl (fun d nd => if d < nd then nd else d)
          (obj_distance (c1.obj.headD default) (c2.obj.headD default)) := rfl

/-- Transfer of scanned distances between the two argument orders. -/
theorem mem_distSet_symm {c1 c2 : cluster_t} {x : ℝ}
    (hx : x ∈ (obj_distance (c1.obj.headD default) (c2.obj.headD default))
        :: pairDists c1 c2) :
    x ∈ (obj_distance (c2.obj.headD default) (c1.obj.headD default))
        :: pairDists c2 c1 := by
  rcases List.mem_cons.mp hx with rfl | hx'
  · rw [obj_distance_symm]
    exact List.mem_cons_self _ _
  · obtain ⟨a, ha, b, hb, hab⟩ := mem_pairDists.mp hx'
    exact List.mem_cons_of_mem _
      (mem_pairDists.mpr ⟨b, hb, a, ha, (obj_distance_symm b a).trans hab⟩)

theorem cluster_distance_avg_symm (c1 c2 : cluster_t) :
    cluster_distance 0 c1 c2 = cluster_distance 0 c2 c1 := by
  rw [cluster_distance_avg, cluster_distance_avg, pairDists_sum_symm,
    Nat.mul_comm]

theorem cluster_distance_min_symm (c1 c2 : cluster_t) :
    cluster_distance 1 c1 c2 = cluster_distance 1 c2 c1 := by
  rw [cluster_distance_min, cluster_distance_min]
  obtain ⟨hm1, hl1⟩ := foldl_min_spec (pairDists c1 c2)
    (obj_distance (c1.obj.headD default) (c2.obj.headD default))
  obtain ⟨hm2, hl2⟩ := foldl_min_spec (pairDists c2 c1)
    (obj_distance (c2.obj.headD default) (c1.obj.headD default))
  exact le_antisymm (hl1 _ (mem_distSet_symm hm2)) (hl2 _ (mem_distSet_symm hm1))

theorem cluster_distance_max_symm (c1 c2 : cluster_t) :
    cluster_distance 2 c1 c2 = cluster_distance 2 c2 c1 := by
  rw [cluster_distance_max, cluster_distance_max]
  obtain ⟨hm1, hl1⟩ := foldl_max_spec (pairDists c1 c2)
    (obj_distance (c1.obj.headD default) (c2.obj.headD default))
  obtain ⟨hm2, hl2⟩ := foldl_max_spec (pairDists c2 c1)
    (obj_distance (c2.obj.headD default) (c1.obj.headD default))
  exact le_antisymm (hl2 _ (mem_distSet_symm hm1)) (hl1 _ (mem_distSet_symm hm2))

/-- **C5**: for every pair of nonempty clusters and every linkage method
(AVERAGE = 0, MIN = 1, MAX = 2), the cluster distance is exactly
symmetric. -/
theorem cluster_distance_symmetric (m : Nat) (c1 c2 : cluster_t)
    (hm : m < 3) (h1 : c1.obj ≠ []) (h2 : c2.obj ≠ []) :
    cluster_distance m c1 c2 = cluster_distance m c2 c1 := by
  interval_cases m
  · exact cluster_distance_avg_symm c1 c2
  · exact cluster_distance_min_symm c1 c2
  · exact cluster_distance_max_symm c1 c2

/-- Concrete instance of distance symmetry (all three methods, two
two-point clusters). -/
theorem cluster_distance_symmetric_witness :
    (0 < 3 ∧ 1 < 3 ∧ 2 < 3 ∧
      (⟨2, [⟨1, 0, 0⟩, ⟨2, 3, 4⟩]⟩ : cluster_t).obj ≠ [] ∧
      (⟨2, [⟨3, 1, 1⟩, ⟨4, 5, 5⟩]⟩ : cluster_t).obj ≠ []) ∧
    (cluster_distance 0 ⟨2, [⟨1, 0, 0⟩, ⟨2, 3, 4⟩]⟩ ⟨2, [⟨3, 1, 1⟩, ⟨4, 5, 5⟩]⟩
        = cluster_distance 0 ⟨2, [⟨3, 1, 1⟩, ⟨4, 5, 5⟩]⟩ ⟨2, [⟨1, 0, 0⟩, ⟨2, 3, 4⟩]⟩ ∧
      cluster_distance 1 ⟨2, [⟨1, 0, 0⟩, ⟨2, 3, 4⟩]⟩ ⟨2, [⟨3, 1, 1⟩, ⟨4, 5, 5⟩]⟩
        = cluster_distance 1 ⟨2, [⟨3, 1, 1⟩, ⟨4, 5, 5⟩]⟩ ⟨2, [⟨1, 0, 0⟩, ⟨2, 3, 4⟩]⟩ ∧
      cluster_distance 2 ⟨2, [⟨1, 0, 0⟩, ⟨2, 3, 4⟩]⟩ ⟨2, [⟨3, 1, 1⟩, ⟨4, 5, 5⟩]⟩
        = cluster_distance 2 ⟨2, [⟨3, 1, 1⟩, ⟨4, 5, 5⟩]⟩ ⟨2, [⟨1, 0, 0⟩, ⟨2, 3, 4⟩]⟩) :=
  ⟨⟨by decide, by decide, by decide, by decide, by decide⟩,
    cluster_distance_symmetric 0 _ _ (by decide) (by decide) (by decide),
    cluster_distance_symmetric 1 _ _ (by decide) (by decide) (by decide),
    cluster_distance_symmetric 2 _ _ (by decide) (by decide) (by decide)⟩

theorem pairDists_length (c1 c2 : cluster_t) :
    (pairDists c1 c2).length = c1.obj.length * c2.obj.length := by
  unfold pairDists
  induction c1.obj with
  | nil => simp
  | cons a as ih =>
    simp only [List.flatMap_cons, List.length_append, List.length_map, ih,
      List.length_cons]
    ring

/-- **C6**: for every pair of nonempty clusters, the MIN-linkage distance
is at most the AVERAGE-linkage distance, which is at most the MAX-linkage
distance. -/
theorem cluster_distance_monotone_bounds (c1 c2 : cluster_t)
    (h1 : c1.obj ≠ []) (h2 : c2.obj ≠ []) :
    cluster_distance 1 c1 c2 ≤ cluster_distance 0 c1 c2 ∧
    cluster_distance 0 c1 c2 ≤ cluster_distance 2 c1 c2 := by
  have hpos : (0 : ℝ) < ((c1.obj.length * c2.obj.length : Nat) : ℝ) := by
    have := List.length_pos.mpr h1
    have := List.length_pos.mpr h2
    push_cast
    positivity
  obtain ⟨_, hlmin⟩ := foldl_min_spec (pairDists c1 c2)
    (obj_distance (c1.obj.headD default) (c2.obj.headD default))
  obtain ⟨_, hlmax⟩ := foldl_max_spec (pairDists c1 c2)
    (obj_distance (c1.obj.headD default) (c2.obj.headD default))
  constructor
  · rw [cluster_distance_min, cluster_distance_avg, le_div_iff hpos]
    have hb : ∀ x ∈ pairDists c1 c2,
        (pairDists c1 c2).foldl (fun d nd => if d > nd then nd else d)
          (obj_distance (c1.obj.headD default) (c2.obj.headD default)) ≤ x :=
      fun x hx => hlmin x (List.mem_cons_of_mem _ hx)
    have hsum := List.card_nsmul_le_sum _ _ hb
    rw [nsmul_eq_mul, pairDists_length] at hsum
    calc _ = ((c1.obj.length * c2.obj.length : Nat) : ℝ) * _ := mul_comm _ _
    _ ≤ (pairDists c1 c2).sum := hsum
  · rw [cluster_distance_max, cluster_distance_avg, div_le_iff hpos]
    have hb : ∀ x ∈ pairDists c1 c2,
        x ≤ (pairDists c1 c2).foldl (fun d nd => if d < nd then nd else d)
          (obj_distance (c1.obj.headD default) (c2.obj.headD default)) :=
      fun x hx => hlmax x (List.mem_cons_of_mem _ hx)
    have hsum := List.sum_le_card_nsmul _ _ hb
    rw [nsmul_eq_mul, pairDists_length] at hsum
    calc (pairDists c1 c2).sum
        ≤ ((c1.obj.length * c2.obj.length : Nat) : ℝ) * _ := hsum
    _ = _ := mul_comm _ _

/-- Concrete instance of the monotone linkage bounds. -/
theorem cluster_distance_monotone_bounds_witness :
    ((⟨2, [⟨1, 0, 0⟩, ⟨2, 3, 4⟩]⟩ : cluster_t).obj ≠ [] ∧
      (⟨2, [⟨3, 1, 1⟩, ⟨4, 5, 5⟩]⟩ : cluster_t).obj ≠ []) ∧
    (cluster_distance 1 ⟨2, [⟨1, 0, 0⟩, ⟨2, 3, 4⟩]⟩ ⟨2, [⟨3, 1, 1⟩, ⟨4, 5, 5⟩]⟩
        ≤ cluster_distance 0 ⟨2, [⟨1, 0, 0⟩, ⟨2, 3, 4⟩]⟩ ⟨2, [⟨3, 1, 1⟩, ⟨4, 5, 5⟩]⟩ ∧
      cluster_distance 0 ⟨2, [⟨1, 0, 0⟩, ⟨2, 3, 4⟩]⟩ ⟨2, [⟨3, 1, 1⟩, ⟨4, 5, 5⟩]⟩
        ≤ cluster_distance 2 ⟨2, [⟨1, 0, 0⟩, ⟨2, 3, 4⟩]⟩ ⟨2, [⟨3, 1, 1⟩, ⟨4, 5, 5⟩]⟩) :=
  ⟨⟨by decide, by decide⟩,
    cluster_distance_monotone_bounds _ _ (by decide) (by decide)⟩

/-! ## C10: unknown method flags are silently accepted as AVERAGE -/

/-- **C10**: for every invocation that supplies a method argument other
than `--min` or `--max` (e.g. a misspelled flag), the program silently
selects the AVERAGE linkage (`premium_case = 0`) and, on otherwise valid
input (parsable positive `N`, successful load, `N ≤ point count`),
completes with exit status 0 — the unrecognized flag is never rejected as
a validation error. -/
theorem unknown_method_selects_average (args : List String) (loadSize : Nat)
    (h4 : 3 < args.length)
    (hmin : args.getD 3 "" ≠ "--min") (hmax : args.getD 3 "" ≠ "--max")
    (hfail : (strtol10 (args.getD 2 "")).2 = "")
    (hpos : 0 < (strtol10 (args.getD 2 "")).1)
    (hload : loadSize ≠ 0)
    (hle : (strtol10 (args.getD 2 "")).1 ≤ (loadSize : Int)) :
    select_method (args.getD 3 "") = 0 ∧ main_model args loadSize = (0, 0) := by
  have hm : select_method (args.getD 3 "") = 0 := by
    rw [select_method, if_neg hmin, if_neg hmax]
  refine ⟨hm, ?_⟩
  have h2' : 2 < args.length := by omega
  simp only [main_model]
  rw [if_neg (show ¬ (args.length < 2) by omega)]
  rw [if_pos h4, hm]
  rw [if_neg (show ¬ (2 < args.length ∧ (strtol10 (args.getD 2 "")).2 ≠ "") from
    fun hc => hc.2 hfail)]
  rw [if_pos h2']
  rw [if_neg (show ¬ (2 < args.length ∧ (strtol10 (args.getD 2 "")).1 ≤ 0) from
    fun hc => absurd hpos (not_lt.mpr hc.2))]
  rw [if_neg hload]
  rw [if_neg (not_lt.mpr hle)]

/-- Concrete instance: a misspelled `--mni` flag with a valid file of one
point and `N = 1` exits 0 with AVERAGE linkage. -/
theorem unknown_method_selects_average_witness :
    (3 < (["./proj3", "data.txt", "1", "--mni"] : List String).length ∧
      (["./proj3", "data.txt", "1", "--mni"] : List String).getD 3 "" ≠ "--min" ∧
      (["./proj3", "data.txt", "1", "--mni"] : List String).getD 3 "" ≠ "--max" ∧
      (strtol10 ((["./proj3", "data.txt", "1", "--mni"] : List String).getD 2 "")).2 = "" ∧
      0 < (strtol10 ((["./proj3", "data.txt", "1", "--mni"] : List String).getD 2 "")).1 ∧
      (1 : Nat) ≠ 0 ∧
      (strtol10 ((["./proj3", "data.txt", "1", "--mni"] : List String).getD 2 "")).1
        ≤ ((1 : Nat) : Int)) ∧
    (select_method ((["./proj3", "data.txt", "1", "--mni"] : List String).getD 3 "") = 0 ∧
      main_model ["./proj3", "data.txt", "1", "--mni"] 1 = (0, 0)) :=
  ⟨⟨by decide, by decide, by decide, by decide, by decide, by decide, by decide⟩,
    unknown_method_selects_average _ 1 (by decide) (by decide) (by decide)
      (by decide) (by decide) (by decide) (by decide)⟩

/-! ## C9: end-to-end example run -/

/-- Input point `1 (1, 1)` of the end-to-end example. -/
def p1 : obj_t := ⟨1, 1, 1⟩
/-- Input point `2 (2, 2)`. -/
def p2 : obj_t := ⟨2, 2, 2⟩
/-- Input point `3 (3, 3)`. -/
def p3 : obj_t := ⟨3, 3, 3⟩
/-- Input point `4 (10, 10)`. -/
def p4 : obj_t := ⟨4, 10, 10⟩

/-- The example's initial collection, as `load_clusters` builds it: one
singleton cluster of capacity 1 per input point. -/
def exC : List cluster_t := [⟨1, [p1]⟩, ⟨1, [p2]⟩, ⟨1, [p3]⟩, ⟨1, [p4]⟩]

theorem sqrt2_pos : (0 : ℝ) < Real.sqrt 2 := Real.sqrt_pos.mpr (by norm_num)

theorem sqrt_sq_mul_two (k : ℝ) (hk : 0 ≤ k) :
    Real.sqrt (k ^ 2 * 2) = k * Real.sqrt 2 := by
  rw [Real.sqrt_mul (by positivity), Real.sqrt_sq hk]

theorem d_p1_p2 : obj_distance p1 p2 = Real.sqrt 2 := by
  unfold obj_distance p1 p2
  norm_num

theorem d_p1_p3 : obj_distance p1 p3 = 2 * Real.sqrt 2 := by
  unfold obj_distance p1 p3
  rw [show (((1 - 3 : ℚ) : ℝ)) ^ 2 + (((1 - 3 : ℚ) : ℝ)) ^ 2 = 2 ^ 2 * 2 by norm_num]
  exact sqrt_sq_mul_two 2 (by norm_num)

theorem d_p1_p4 : obj_distance p1 p4 = 9 * Real.sqrt 2 := by
  unfold obj_distance p1 p4
  rw [show (((1 - 10 : ℚ) : ℝ)) ^ 2 + (((1 - 10 : ℚ) : ℝ)) ^ 2 = 9 ^ 2 * 2 by norm_num]
  exact sqrt_sq_mul_two 9 (by norm_num)

theorem d_p2_p3 : obj_distance p2 p3 = Real.sqrt 2 := by
  unfold obj_distance p2 p3
  norm_num

theorem d_p2_p4 : obj_distance p2 p4 = 8 * Real.sqrt 2 := by
  unfold obj_distance p2 p4
  rw [show (((2 - 10 : ℚ) : ℝ)) ^ 2 + (((2 - 10 : ℚ) : ℝ)) ^ 2 = 8 ^ 2 * 2 by norm_num]
  exact sqrt_sq_mul_two 8 (by norm_num)

theorem d_p3_p4 : obj_distance p3 p4 = 7 * Real.sqrt 2 := by
  unfold obj_distance p3 p4
  rw [show (((3 - 10 : ℚ) : ℝ)) ^ 2 + (((3 - 10 : ℚ) : ℝ)) ^ 2 = 7 ^ 2 * 2 by norm_num]
  exact sqrt_sq_mul_two 7 (by norm_num)

theorem cluster_distance_avg_single (n n' : Nat) (a b : obj_t) :
    cluster_distance 0 ⟨n, [a]⟩ ⟨n', [b]⟩ = obj_distance a b := by
  rw [cluster_distance_avg]
  simp [pairDists]

theorem cluster_distance_avg_single_pair (n n' : Nat) (a b c : obj_t) :
    cluster_distance 0 ⟨n, [a]⟩ ⟨n', [b, c]⟩
      = (obj_distance a b + obj_distance a c) / 2 := by
  rw [cluster_distance_avg]
  simp [pairDists]

theorem cluster_distance_avg_pair_single (n n' : Nat) (a b c : obj_t) :
    cluster_distance 0 ⟨n, [a, b]⟩ ⟨n', [c]⟩
      = (obj_distance a c + obj_distance b c) / 2 := by
  rw [cluster_distance_avg]
  simp [pairDists]

theorem scanPairs_four :
    scanPairs 4 = [(0,1),(0,2),(0,3),(1,2),(1,3),(2,3)] := by decide

theorem scanPairs_three : scanPairs 3 = [(0,1),(0,2),(1,2)] := by decide

/-- First `find_neighbours` call of the example: the pair `{2}, {3}`
(indices 1 and 2) wins, the exact tie with `{1}, {2}` being resolved in
favour of the later-scanned pair. -/
theorem find_exC1 : find_neighbours 0 exC = (1, 2) := by
  have h2 : ¬ (2 * Real.sqrt 2 ≤ Real.sqrt 2) := by nlinarith [sqrt2_pos]
  have h9 : ¬ (9 * Real.sqrt 2 ≤ Real.sqrt 2) := by nlinarith [sqrt2_pos]
  have h8 : ¬ (8 * Real.sqrt 2 ≤ Real.sqrt 2) := by nlinarith [sqrt2_pos]
  have h7 : ¬ (7 * Real.sqrt 2 ≤ Real.sqrt 2) := by nlinarith [sqrt2_pos]
  unfold find_neighbours
  rw [show exC.length = 4 from rfl, scanPairs_four]
  simp only [exC, List.getD_cons_zero, List.getD_cons_succ, bestPair,
    cluster_distance_avg_single, d_p1_p2, d_p1_p3, d_p1_p4, d_p2_p3,
    d_p2_p4, d_p3_p4, ge_iff_le, le_refl, if_true, h2, h9, h8, h7,
    if_false]

/-- The collection after the example's first iteration. -/
def exC2 : List cluster_t := [⟨1, [p1]⟩, ⟨11, [p2, p3]⟩, ⟨10, [p4]⟩]

/-- The collection after the example's second iteration. -/
def exC3 : List cluster_t := [⟨11, [p1, p2, p3]⟩, ⟨10, [p4]⟩]

/-- First driver iteration of the example: `{3}` is merged into `{2}` and
slot 2 is compacted away. -/
theorem step_exC1 : step 0 exC = exC2 := by
  unfold step
  rw [find_exC1]
  simp [exC, exC2, remove_cluster, remove_clusterLoop, clear_cluster,
    merge_clusters, sort_cluster, append_cluster, resize_cluster, growCap,
    CLUSTER_CHUNK, idLE, List.insertionSort, List.orderedInsert, p1, p2, p3, p4]

/-- Second `find_neighbours` call of the example: `{1}` and `{2, 3}`. -/
theorem find_exC2 : find_neighbours 0 exC2 = (0, 1) := by
  have h92 : ¬ (9 * Real.sqrt 2 ≤ (Real.sqrt 2 + 2 * Real.sqrt 2) / 2) := by
    nlinarith [sqrt2_pos]
  have h872 : ¬ ((8 * Real.sqrt 2 + 7 * Real.sqrt 2) / 2
      ≤ (Real.sqrt 2 + 2 * Real.sqrt 2) / 2) := by
    nlinarith [sqrt2_pos]
  unfold find_neighbours
  rw [show exC2.length = 3 from rfl, scanPairs_three]
  simp only [exC2, List.getD_cons_zero, List.getD_cons_succ, bestPair,
    cluster_distance_avg_single, cluster_distance_avg_single_pair,
    cluster_distance_avg_pair_single, d_p1_p2, d_p1_p3, d_p1_p4, d_p2_p4,
    d_p3_p4, ge_iff_le, le_refl, if_true, h92, h872, if_false]

/-- Second driver iteration of the example: `{2, 3}` is merged into `{1}`
and slot 1 is compacted away. -/
theorem step_exC2 : step 0 exC2 = exC3 := by
  unfold step
  rw [find_exC2]
  simp [exC2, exC3, remove_cluster, remove_clusterLoop, clear_cluster,
    merge_clusters, sort_cluster, append_cluster, resize_cluster, growCap,
    CLUSTER_CHUNK, idLE, List.insertionSort, List.orderedInsert, p1, p2, p3, p4]

/-- The example's full run to target 2: two iterations, final collection
`{1, 2, 3}` (points ordered 1, 2, 3 by id) and `{4}`. -/
theorem run_exC : run 0 2 exC = (exC3, 2) := by
  have e1 : runAux 0 2 4 exC
      = if 2 < exC.length
        then ((runAux 0 2 3 (step 0 exC)).1, (runAux 0 2 3 (step 0 exC)).2 + 1)
        else (exC, 0) := runAux_succ 0 2 3 exC
  have e2 : runAux 0 2 3 exC2
      = if 2 < exC2.length
        then ((runAux 0 2 2 (step 0 exC2)).1, (runAux 0 2 2 (step 0 exC2)).2 + 1)
        else (exC2, 0) := runAux_succ 0 2 2 exC2
  have e3 : runAux 0 2 2 exC3
      = if 2 < exC3.length
        then ((runAux 0 2 1 (step 0 exC3)).1, (runAux 0 2 1 (step 0 exC3)).2 + 1)
        else (exC3, 0) := runAux_succ 0 2 1 exC3
  show runAux 0 2 4 exC = _
  rw [e1, if_pos (by decide), step_exC1, e2, if_pos (by decide), step_exC2,
    e3, if_neg (by decide)]

/-- **C9**: for the input points `{1:(1,1), 2:(2,2), 3:(3,3), 4:(10,10)}`
with method AVERAGE and target `N = 2`, the clustering loop first merges
clusters `{2}` and `{3}` (the exact tie with the pair `{1}, {2}` resolved
in favour of the later-scanned pair `(1, 2)`), then merges `{1}` with
`{2, 3}`; the final collection is the two clusters `{1, 2, 3}` and `{4}`,
the first cluster's points ordered `1, 2, 3` by id. -/
theorem example_run_correct :
    find_neighbours 0 exC = (1, 2) ∧
    step 0 exC = [⟨1, [p1]⟩, ⟨11, [p2, p3]⟩, ⟨10, [p4]⟩] ∧
    find_neighbours 0 [⟨1, [p1]⟩, ⟨11, [p2, p3]⟩, ⟨10, [p4]⟩] = (0, 1) ∧
    run 0 2 exC = ([⟨11, [p1, p2, p3]⟩, ⟨10, [p4]⟩], 2) :=
  ⟨find_exC1, step_exC1, find_exC2, run_exC⟩
